import Mathlib

/-!
# Verification of the changemon tree-diff engine

A shallow embedding of `changemon.py` (a directory comparison / monitoring
tool) together with proofs about its diff pipeline.

The file system is abstracted as a total function from path strings to
`FileMeta` records (byte size, content digest, modification time); path
strings are Lean `String`s and all path manipulation (`os.path.join`,
`os.path.commonprefix`, `str.replace(sub, '', 1)`) is embedded character
by character.  Python runtime errors that the claims are concerned with
(`IndexError`, `NameError`, `KeyError`) are made explicit with an
`Except` result type.
-/

set_option autoImplicit false

namespace Changemon

/-- Metadata the program can observe about one file: `os.path.getsize`,
the md5 digest of its contents (abstracted to a natural number), and
`os.path.getmtime`. -/
structure FileMeta where
  size : Nat
  md5 : Nat
  mtime : Int
  deriving DecidableEq

/-- A file-system state: what each absolute path's metadata currently is. -/
abbrev FS := String → FileMeta

/-- One `os.walk` triple `(root, dirs, files)`. -/
structure Entry where
  root : String
  dirs : List String
  files : List String
  deriving DecidableEq

/-- A tree snapshot: the ordered list of `os.walk` triples. -/
abbrev Tree := List Entry

/-- Python runtime errors the embedded code can raise. -/
inductive PyErr where
  | indexError
  | nameError
  | keyError
  deriving DecidableEq

/-- A labeled group: `(label, list of relative paths)`. -/
abbrev Group := String × List String

instance {ε α : Type} [DecidableEq ε] [DecidableEq α] : DecidableEq (Except ε α)
  | .error e, .error f =>
    if h : e = f then .isTrue (by rw [h]) else .isFalse (by intro hc; cases hc; exact h rfl)
  | .error _, .ok _ => .isFalse (by intro hc; cases hc)
  | .ok _, .error _ => .isFalse (by intro hc; cases hc)
  | .ok a, .ok b =>
    if h : a = b then .isTrue (by rw [h]) else .isFalse (by intro hc; cases hc; exact h rfl)

/-! ## String / path primitives -/

/-- Tests whether `pre` is a literal string prefix of `s` (char-list based so that it
evaluates inside the kernel). -/
def strStartsWith (s pre : String) : Bool :=
  pre.toList.isPrefixOf s.toList

/-- Tests whether `suf` is a literal string suffix of `s`. -/
def strEndsWith (s suf : String) : Bool :=
  suf.toList.isSuffixOf s.toList

/-- Embeds `posixpath.join(a, b)` for two components, as used by the source:
an absolute `b` wins; otherwise a separator is inserted unless `a` is
empty or already ends in one. -/
def pjoin (a b : String) : String :=
  if strStartsWith b "/" then b
  else if a = "" ∨ strEndsWith a "/" then a ++ b
  else a ++ "/" ++ b

/-- The source's `with_sep(s) = os.path.join(s, '')`: add a trailing separator unless
`s` is empty or already has one (source line 146). -/
def with_sep (s : String) : String := pjoin s ""

/-- Longest common prefix of two character lists. -/
def lcp2 : List Char → List Char → List Char
  | x :: xs, y :: ys => if x = y then x :: lcp2 xs ys else []
  | _, _ => []

/-- Embeds `os.path.commonprefix`: longest common literal string prefix of a
list of strings (empty string for the empty list). -/
def commonPrefixAll : List String → String
  | [] => ""
  | h :: t => (t.foldl (fun acc s => lcp2 acc s.toList) h.toList).asString

/-- Remove the leftmost occurrence of `sub` from the character list `s`
(the substitution part of `str.replace(sub, '', 1)`). An empty pattern
matches immediately and removes nothing. -/
def replaceFirst (sub : List Char) : List Char → List Char
  | [] => []
  | c :: rest =>
    if sub.isPrefixOf (c :: rest) then (c :: rest).drop sub.length
    else c :: replaceFirst sub rest

/-- The source's `erase_from(s, sub) = s.replace(sub, '', 1)` (line 150). -/
def erase_from (s sub : String) : String :=
  (replaceFirst sub.toList s.toList).asString

/-! ## Change Detector (source `differing`, lines 87-105) -/

/-- The source's `differing(files, skip_checksum)`: size first; on equal sizes either
the md5 digests (checksum mode) or the modification times (mtime mode)
are compared, exactly as the source's if/elif cascade. -/
def differing (fs : FS) (file1 file2 : String) (skip_checksum : Bool) : Bool :=
  if (fs file1).size ≠ (fs file2).size then true
  else if skip_checksum = false then decide ((fs file1).md5 ≠ (fs file2).md5)
  else decide ((fs file1).mtime ≠ (fs file2).mtime)

/-! ## Path Normalizer (source lines 155-165) -/

/-- The source's `full_listing(t)`: flat list of files and separator-suffixed
directories of every walk entry, each joined onto its entry's root, in
walk order. -/
def full_listing (t : Tree) : List String :=
  t.foldl
    (fun acc e => acc ++ (e.files ++ e.dirs.map with_sep).map (fun i => pjoin e.root i))
    []

/-- The source's `stripped_listing(root, l)`: each listed path with
`with_sep(commonprefix([root] + l))` erased at its first occurrence. -/
def stripped_listing (root : String) (l : List String) : List String :=
  l.map (fun s => erase_from s (with_sep (commonPrefixAll (root :: l))))

/-- The source's `t[0][0]`: the root path of a snapshot's first walk entry (the
source indexes unconditionally; callers guard non-emptiness). -/
def rootOf (t : Tree) : String := (t.headD ⟨"", [], []⟩).root

/-- The normalized relative-path listing of a snapshot. -/
def normalized (t : Tree) : List String :=
  stripped_listing (rootOf t) (full_listing t)

/-! ## Set Classifier (source lines 171-175) -/

/-- The source's added/removed/common list comprehensions (lines
171-175), returned as the triple `(added, removed, common)`. -/
def classify (before_paths after_paths : List String) :
    List String × List String × List String :=
  let added := after_paths.filter (fun p => !(decide (p ∈ before_paths)))
  let removed := before_paths.filter (fun p => !(decide (p ∈ after_paths)))
  let common := after_paths.filter (fun p => !(decide (p ∈ added)))
  (added, removed, common)

/-- The Added set of a pair of snapshots. -/
def addedOf (t1 t2 : Tree) : List String :=
  (classify (normalized t1) (normalized t2)).1

/-- The Removed set of a pair of snapshots. -/
def removedOf (t1 t2 : Tree) : List String :=
  (classify (normalized t1) (normalized t2)).2.1

/-- The Common ("Shared") set of a pair of snapshots. -/
def commonOf (t1 t2 : Tree) : List String :=
  (classify (normalized t1) (normalized t2)).2.2

/-- Non-directory common paths re-joined onto both roots
(source lines 177-178). -/
def commonWithRootsOf (t1 t2 : Tree) : List (String × String) :=
  ((commonOf t1 t2).filter (fun p => !(strEndsWith p "/"))).map
    (fun p => (pjoin (rootOf t1) p, pjoin (rootOf t2) p))

/-- The Changed set computed by the orchestrator's change cascade
(source lines 183-184). -/
def changedOf (t1 t2 : Tree) (fs : FS) (skip_checksum : Bool) : List String :=
  ((commonWithRootsOf t1 t2).filter (fun pr => differing fs pr.1 pr.2 skip_checksum)).map
    (fun pr => erase_from pr.1 (with_sep (rootOf t1)))

/-- The Unchanged set (source lines 186-187). -/
def unchangedOf (t1 t2 : Tree) (fs : FS) (skip_checksum : Bool) : List String :=
  (commonOf t1 t2).filter
    (fun p => !(decide (p ∈ changedOf t1 t2 fs skip_checksum)) && !(strEndsWith p "/"))

/-! ## Group assembly (source lines 189-202) -/

/-- Python `sorted` on strings: stable ascending insertion into a sorted
list. -/
def insertSorted (a : String) : List String → List String
  | [] => [a]
  | b :: t => if a < b then a :: b :: t else b :: insertSorted a t

/-- Python `sorted` on a list of strings. -/
def pysorted : List String → List String
  | [] => []
  | x :: xs => insertSorted x (pysorted xs)

/-- The first group of the source's `groups` table matching a flag
character (the inner for/break of lines 197-200); the five characters
are distinct so first match is the only match. -/
def groupFor (f : Char) (added changed removed common unchanged : List String) :
    Option Group :=
  if f = 'a' then some ("Added", pysorted added)
  else if f = 'c' then some ("Changed", pysorted changed)
  else if f = 'r' then some ("Removed", pysorted removed)
  else if f = 's' then some ("Shared", pysorted common)
  else if f = 'u' then some ("Unchanged", pysorted unchanged)
  else none

/-- The result assembly loop of source lines 195-201: one output group
per flag character that names a group, in flag order. -/
def buildResults (chars : List Char)
    (added changed removed common unchanged : List String) : List Group :=
  chars.filterMap (fun f => groupFor f added changed removed common unchanged)

/-! ## Diff Orchestrator (source `comparison`, lines 139-202) -/

/-- The source's `comparison(flags, t1, t2, skip_checksum)`.

An empty snapshot raises `IndexError` at `t1[0][0]` / `t2[0][0]`
(line 167).  When neither `'c'` nor `'u'` occurs in `flags`, the
`changed` and `unchanged` locals are never assigned, so building the
`groups` table at line 189 raises an unbound-local `NameError`. -/
def comparison (flags : String) (t1 t2 : Tree) (fs : FS) (skip_checksum : Bool) :
    Except PyErr (List Group) :=
  if t1 = [] ∨ t2 = [] then .error .indexError
  else if 'c' ∈ flags.toList ∨ 'u' ∈ flags.toList then
    .ok (buildResults (flags.toList.map Char.toLower)
          (addedOf t1 t2) (changedOf t1 t2 fs skip_checksum) (removedOf t1 t2)
          (commonOf t1 t2) (unchangedOf t1 t2 fs skip_checksum))
  else .error .nameError

/-! ## Checksum Provider (source `get_checksums`, lines 78-84) -/

/-- The source's `get_checksums(tree)`: dict from each file's absolute path to the md5
digest of its contents (later assignments win, as in a Python dict). -/
def getChecksums (t : Tree) (fs : FS) : String → Option Nat :=
  t.foldl
    (fun m e =>
      e.files.foldl
        (fun m' f => fun x => if x = pjoin e.root f then some ((fs (pjoin e.root f)).md5) else m' x)
        m)
    (fun _ => none)

/-! ## Incremental Monitor (source `monitor`, lines 205-263) -/

/-- Source lines 232-233: force `'s'` into the flag string if absent. -/
def flagsWithS (flags : String) : String :=
  if 's' ∈ flags.toList then flags else flags.push 's'

/-- The Diff Orchestrator call of source line 236.  `skip` mirrors the
user's `args.skip_checksum` configuration, which is in scope at the call
site but ignored: the source hardcodes `skip_checksum=True` there. -/
def monitorCompared (flags : String) (skip : Bool) (pre cur : Tree) (fsCur : FS) :
    Except PyErr (List Group) :=
  let _ := skip
  comparison (flagsWithS flags) pre cur fsCur true

/-- The inner loop of source lines 244-249: for each shared name, look
its absolute path up in the previous checksum dict; when present and the
current digest differs, collect the name.  A `none` checksum map models
the unbound `pre_checksums` / `cur_checksums` locals (`NameError` on
first touch); a key missing from the current dict is a `KeyError`. -/
def sharedChanged (preCk curCk : Option (String → Option Nat)) (root : String) :
    List String → Except PyErr (List String)
  | [] => .ok []
  | fname :: rest =>
    match preCk with
    | none => .error .nameError
    | some m1 =>
      match m1 (pjoin root fname) with
      | none => sharedChanged preCk curCk root rest
      | some d1 =>
        match curCk with
        | none => .error .nameError
        | some m2 =>
          match m2 (pjoin root fname) with
          | none => .error .keyError
          | some d2 =>
            if d1 ≠ d2 then (sharedChanged preCk curCk root rest).map (fun l => fname :: l)
            else sharedChanged preCk curCk root rest

/-- Position and path list of the first group labeled `"Shared"`
(the find part of source lines 242-244). -/
def findShared : List Group → Option (Nat × List String)
  | [] => none
  | (label, seq) :: rest =>
    if label = "Shared" then some (0, seq)
    else (findShared rest).map (fun is => (is.1 + 1, is.2))

/-- Source lines 253-257: the loop body runs once (its `break` sits at
loop level, outside the `if`), so only a `"Changed"` group at the head
of the list is replaced by the synthesized list. -/
def replaceHeadChanged (l : List Group) (changed : List String) : List Group :=
  match l with
  | [] => []
  | (label, seq) :: rest =>
    if label = "Changed" then ("Changed", changed) :: rest else (label, seq) :: rest

/-- Source lines 241-257: find the `"Shared"` group, synthesize the
checksum-map Changed list from it, delete it, then conditionally replace
the head group's Changed list. -/
def processShared (preCk curCk : Option (String → Option Nat)) (root : String)
    (compared : List Group) : Except PyErr (List Group) :=
  match findShared compared with
  | none => .ok (replaceHeadChanged compared [])
  | some is =>
    (sharedChanged preCk curCk root is.2).map
      (fun changed => replaceHeadChanged (compared.eraseIdx is.1) changed)

/-- One steady cycle of the monitor loop (source lines 217-259): the
checksum maps are built only when `skip` is false (lines 222-230, a
`none` map standing for the unbound local), the Diff Orchestrator runs
with checksums forcibly skipped, and the Shared group drives the
synthesized Changed list.  `fsPre` is the file-system state when the
previous cycle fingerprinted its snapshot, `fsCur` the state at this
cycle's walk. -/
def monitorCycle (flags : String) (skip : Bool) (pre cur : Tree)
    (fsPre fsCur : FS) : Except PyErr (List Group) :=
  let preCk : Option (String → Option Nat) :=
    if skip then none else some (getChecksums pre fsPre)
  let curCk : Option (String → Option Nat) :=
    if skip then none else some (getChecksums cur fsCur)
  (monitorCompared flags skip pre cur fsCur).bind
    (processShared preCk curCk (rootOf pre))

/-! ## Spec-side rendering of root stripping (for refinement comparison)

The specification describes `strip_root` as removing "the longest common
literal prefix of `root` and every path in `paths` ... exactly once from
the front of each path string"; the following definition follows those
words so it can be compared with `stripped_listing` above. -/

/-- The specification's description of root stripping: remove the
longest common literal prefix itself (no separator adjustment) from the
front of each path. -/
def strip_root_spec (root : String) (l : List String) : List String :=
  l.map (fun s =>
    let pre := commonPrefixAll (root :: l)
    if pre.toList.isPrefixOf s.toList then (s.toList.drop pre.toList.length).asString else s)

/-- The label a flag character selects, if any (mirrors `groupFor`). -/
def labelOfFlag (f : Char) : Option String :=
  if f = 'a' then some "Added"
  else if f = 'c' then some "Changed"
  else if f = 'r' then some "Removed"
  else if f = 's' then some "Shared"
  else if f = 'u' then some "Unchanged"
  else none

/-- The per-path test the monitor's Shared loop applies: fingerprints
present in both checksum maps and different. -/
def ckDiffers (m1 m2 : String → Option Nat) (root q : String) : Bool :=
  match m1 (pjoin root q), m2 (pjoin root q) with
  | some d1, some d2 => decide (d1 ≠ d2)
  | _, _ => false

/-! ## Concrete instances used to exercise the definitions -/

/-- A file system where every file has the same metadata. -/
def fs0 : FS := fun _ => ⟨0, 0, 0⟩

/-- A file system where `"a"` and every other path have different sizes. -/
def fsSizes : FS := fun p => if p = "a" then ⟨1, 0, 0⟩ else ⟨2, 0, 0⟩

/-- Equal sizes and mtimes, different digests for `"a"` vs the rest. -/
def fsDigests : FS := fun p => if p = "a" then ⟨1, 3, 7⟩ else ⟨1, 4, 7⟩

/-- Constant metadata with digest 5. -/
def fsMtA : FS := fun _ => ⟨1, 5, 2⟩

/-- Constant metadata with digest 7, same sizes and mtimes as `fsMtA`. -/
def fsMtB : FS := fun _ => ⟨1, 7, 2⟩

/-- A one-file snapshot rooted at `/a`. -/
def treeA : Tree := [⟨"/a", [], ["x"]⟩]

/-- A two-file snapshot rooted at `/b`. -/
def treeB : Tree := [⟨"/b", [], ["x", "y"]⟩]

/-- A snapshot with one file and one directory rooted at `/a`. -/
def treeAd : Tree := [⟨"/a", ["d"], ["f"]⟩]

/-- The same shape as `treeAd`, rooted at `/b`. -/
def treeBd : Tree := [⟨"/b", ["d"], ["f"]⟩]

/-- A one-file snapshot of a watched directory `/w`. -/
def wTree : Tree := [⟨"/w", [], ["f"]⟩]

/-- The watched file before a content rewrite: size 4, digest 1, mtime 10. -/
def fsPreW : FS := fun _ => ⟨4, 1, 10⟩

/-- The watched file after the rewrite: same size and mtime, digest 2. -/
def fsCurW : FS := fun _ => ⟨4, 2, 10⟩

/-! ## Helper lemmas -/

theorem mem_insertSorted {p a : String} {l : List String} :
    p ∈ insertSorted a l ↔ p = a ∨ p ∈ l := by
  induction l with
  | nil => simp [insertSorted]
  | cons b t ih =>
    by_cases h : a < b
    · simp [insertSorted, h]
    · simp only [insertSorted, if_neg h, List.mem_cons, ih]
      tauto

theorem mem_pysorted {p : String} {l : List String} :
    p ∈ pysorted l ↔ p ∈ l := by
  induction l with
  | nil => simp [pysorted]
  | cons x xs ih => simp [pysorted, mem_insertSorted, ih]

theorem pysorted_ne_nil {l : List String} (h : l ≠ []) : pysorted l ≠ [] := by
  cases l with
  | nil => exact absurd rfl h
  | cons x xs =>
    intro hc
    have : x ∈ pysorted (x :: xs) := mem_pysorted.mpr (List.mem_cons_self x xs)
    rw [hc] at this
    exact List.not_mem_nil x this

theorem mem_classify_added {before after : List String} {p : String} :
    p ∈ (classify before after).1 ↔ p ∈ after ∧ p ∉ before := by
  simp [classify, List.mem_filter]

theorem mem_classify_removed {before after : List String} {p : String} :
    p ∈ (classify before after).2.1 ↔ p ∈ before ∧ p ∉ after := by
  simp [classify, List.mem_filter]

theorem mem_classify_common {before after : List String} {p : String} :
    p ∈ (classify before after).2.2 ↔ p ∈ after ∧ p ∈ before := by
  simp only [classify, List.mem_filter, Bool.not_eq_eq_eq_not, Bool.not_true,
    decide_eq_false_iff_not]
  tauto

theorem groupFor_label (f : Char) (a c r s u : List String) :
    (groupFor f a c r s u).map Prod.fst = labelOfFlag f := by
  unfold groupFor labelOfFlag
  by_cases h1 : f = 'a'
  · simp only [if_pos h1]; rfl
  · simp only [if_neg h1]
    by_cases h2 : f = 'c'
    · simp only [if_pos h2]; rfl
    · simp only [if_neg h2]
      by_cases h3 : f = 'r'
      · simp only [if_pos h3]; rfl
      · simp only [if_neg h3]
        by_cases h4 : f = 's'
        · simp only [if_pos h4]; rfl
        · simp only [if_neg h4]
          by_cases h5 : f = 'u'
          · simp only [if_pos h5]; rfl
          · simp only [if_neg h5]; rfl

theorem buildResults_map_fst (chars : List Char) (a c r s u : List String) :
    (buildResults chars a c r s u).map Prod.fst = chars.filterMap labelOfFlag := by
  induction chars with
  | nil => rfl
  | cons f rest ih =>
    simp only [buildResults, List.filterMap_cons] at *
    have hl := groupFor_label f a c r s u
    cases hg : groupFor f a c r s u with
    | none =>
      rw [hg] at hl
      simp at hl
      rw [← hl, ih]
    | some g =>
      rw [hg] at hl
      simp at hl
      rw [← hl]
      simp [ih]

theorem mem_buildResults {chars : List Char} {a c r s u : List String} {e : Group}
    (h : e ∈ buildResults chars a c r s u) :
    ∃ f ∈ chars, groupFor f a c r s u = some e := by
  simpa [buildResults] using List.mem_filterMap.mp h

theorem groupFor_shared {f : Char} {a c r s u : List String} {e : Group}
    (h : groupFor f a c r s u = some e) (hl : e.1 = "Shared") :
    e.2 = pysorted s := by
  unfold groupFor at h
  by_cases h1 : f = 'a'
  · rw [if_pos h1] at h
    cases h
    simp at hl
  · rw [if_neg h1] at h
    by_cases h2 : f = 'c'
    · rw [if_pos h2] at h
      cases h
      simp at hl
    · rw [if_neg h2] at h
      by_cases h3 : f = 'r'
      · rw [if_pos h3] at h
        cases h
        simp at hl
      · rw [if_neg h3] at h
        by_cases h4 : f = 's'
        · rw [if_pos h4] at h
          cases h
          rfl
        · rw [if_neg h4] at h
          by_cases h5 : f = 'u'
          · rw [if_pos h5] at h
            cases h
            simp at hl
          · rw [if_neg h5] at h
            cases h

/-- Evaluating `comparison` on non-empty snapshots with a change-detecting flag set
returns the assembled groups. -/
theorem comparison_ok (flags : String) (t1 t2 : Tree) (fs : FS) (sk : Bool)
    (h1 : t1 ≠ []) (h2 : t2 ≠ [])
    (hcu : 'c' ∈ flags.toList ∨ 'u' ∈ flags.toList) :
    comparison flags t1 t2 fs sk =
      .ok (buildResults (flags.toList.map Char.toLower)
            (addedOf t1 t2) (changedOf t1 t2 fs sk) (removedOf t1 t2)
            (commonOf t1 t2) (unchangedOf t1 t2 fs sk)) := by
  unfold comparison
  rw [if_neg (by simp [h1, h2]), if_pos hcu]

/-! ## Claim C5: the three-tier change cascade -/

/-- C5: `differing` evaluates a fixed three-tier cascade: differing byte
sizes give the verdict `changed` in both checksum and mtime mode without
consulting any fingerprint; on equal sizes, checksum mode's verdict is
exactly digest inequality (independent of mtimes) and mtime mode's
verdict is exactly mtime inequality (independent of digests), so exactly
one of the two fingerprint tiers decides, never both. -/
theorem differing_cascade (fs : FS) (file1 file2 : String) :
    ((fs file1).size ≠ (fs file2).size → ∀ sk : Bool, differing fs file1 file2 sk = true) ∧
    ((fs file1).size = (fs file2).size →
      differing fs file1 file2 false = decide ((fs file1).md5 ≠ (fs file2).md5) ∧
      differing fs file1 file2 true = decide ((fs file1).mtime ≠ (fs file2).mtime)) := by
  constructor
  · intro h sk
    simp [differing, h]
  · intro h
    constructor <;> simp [differing, h]

/-- Witness for C5 at concrete file systems: a size mismatch is changed
in mtime mode, and an equal-size digest mismatch is changed in checksum
mode. -/
theorem differing_cascade_witness :
    differing fsSizes "a" "b" true = true ∧ differing fsDigests "a" "b" false = true := by
  constructor
  · exact (differing_cascade fsSizes "a" "b").1 (by decide) true
  · have h := ((differing_cascade fsDigests "a" "b").2 (by decide)).1
    simpa using h

/-! ## Claim C6: the Added/Removed/Common partition invariant -/

/-- C6: for every pair of normalized path sequences, the classification
satisfies the partition invariant: Added and Removed are disjoint, Added
and Common are disjoint, and Removed and Common are disjoint. -/
theorem classify_partition (before after : List String) (p : String) :
    (p ∈ (classify before after).1 → p ∉ (classify before after).2.1) ∧
    (p ∈ (classify before after).1 → p ∉ (classify before after).2.2) ∧
    (p ∈ (classify before after).2.1 → p ∉ (classify before after).2.2) := by
  refine ⟨fun h hc => ?_, fun h hc => ?_, fun h hc => ?_⟩
  · exact (mem_classify_added.mp h).2 (mem_classify_removed.mp hc).1
  · exact (mem_classify_added.mp h).2 (mem_classify_common.mp hc).2
  · exact (mem_classify_removed.mp h).2 (mem_classify_common.mp hc).1

/-- Witness for C6: with before `["a"]` and after `["a", "b"]`, the
added path `"b"` is not in the removed set. -/
theorem classify_partition_witness :
    "b" ∉ (classify ["a"] ["a", "b"]).2.1 :=
  (classify_partition ["a"] ["a", "b"] "b").1 (by decide)

/-! ## Claim C10: empty snapshots raise IndexError -/

/-- C10: `comparison` requires both snapshots non-empty; with an empty
snapshot sequence on either side it raises `IndexError` while extracting
the root path, instead of returning empty groups. -/
theorem comparison_empty_snapshot (flags : String) (t1 t2 : Tree) (fs : FS) (sk : Bool)
    (h : t1 = [] ∨ t2 = []) :
    comparison flags t1 t2 fs sk = .error .indexError := by
  unfold comparison
  rw [if_pos h]

/-- Witness for C10: an empty first snapshot raises `IndexError`. -/
theorem comparison_empty_snapshot_witness :
    comparison "car" [] treeB fs0 false = .error .indexError :=
  comparison_empty_snapshot "car" [] treeB fs0 false (Or.inl rfl)

/-! ## Claim C2: flags without `c` or `u` crash -/

/-- C2 (divergence witness): with non-empty snapshots and flag string
`"ar"` (no `'c'`, no `'u'`), `comparison` does not return the Added and
Removed groups: the unconditional `groups` table construction touches
the never-assigned `changed`/`unchanged` locals and raises `NameError`. -/
theorem comparison_no_cu_nameError :
    comparison "ar" treeA treeB fs0 false = .error .nameError := rfl

/-! ## Claim C3: group order and duplicate flags -/

/-- C3 counterexample: with flags `"aac"` the output is Added, Added,
Changed — duplicate flag characters are not collapsed, contradicting the
claim that each group appears at most once. -/
theorem comparison_dup_flags_counterexample :
    comparison "aac" treeA treeB fs0 false
      = .ok [("Added", ["y"]), ("Added", ["y"]), ("Changed", [])] ∧
    [("Added", ["y"]), ("Added", ["y"]), ("Changed", ([] : List String))]
      ≠ [("Added", ["y"]), ("Changed", ([] : List String))] :=
  ⟨rfl, by decide⟩

/-- C3 amended: the sequence of groups returned by `comparison` follows
the order in which flag characters appear in the (lowercased) flag
string, with one group emitted per occurrence of a recognized character
— so duplicate flag characters repeat their group rather than collapse,
and `compare(flags="aac")` returns Added, Added, Changed. -/
theorem comparison_flag_order (flags : String) (t1 t2 : Tree) (fs : FS) (sk : Bool)
    (res : List Group) (h : comparison flags t1 t2 fs sk = .ok res) :
    res.map Prod.fst = (flags.toList.map Char.toLower).filterMap labelOfFlag := by
  unfold comparison at h
  by_cases h0 : t1 = [] ∨ t2 = []
  · rw [if_pos h0] at h
    cases h
  · rw [if_neg h0] at h
    by_cases hcu : 'c' ∈ flags.toList ∨ 'u' ∈ flags.toList
    · rw [if_pos hcu] at h
      injection h with h
      rw [← h]
      exact buildResults_map_fst _ _ _ _ _ _
    · rw [if_neg hcu] at h
      cases h

/-- Witness for C3 amended, at the `"aac"` counterexample input. -/
theorem comparison_flag_order_witness :
    ([("Added", ["y"]), ("Added", ["y"]), ("Changed", ([] : List String))] : List Group).map
        Prod.fst
      = ("aac".toList.map Char.toLower).filterMap labelOfFlag :=
  comparison_flag_order "aac" treeA treeB fs0 false _ rfl

/-! ## Claim C4: root stripping -/

theorem replaceFirst_eq_drop (sub s : List Char) (h : sub.isPrefixOf s = true) :
    replaceFirst sub s = s.drop sub.length := by
  cases s with
  | nil =>
    cases sub with
    | nil => rfl
    | cons c cs => simp [List.isPrefixOf] at h
  | cons c rest => simp [replaceFirst, h]

/-- C4 counterexample: with root `"/a"` and listing `["/a/x"]`, the code
strips `"/a/"` (the common prefix `"/a"` with a separator appended)
yielding `"x"`, while the claim's description — strip the longest common
literal prefix itself from the front — would yield `"/x"`. -/
theorem stripped_listing_counterexample :
    stripped_listing "/a" ["/a/x"] = ["x"] ∧
    strip_root_spec "/a" ["/a/x"] = ["/x"] ∧
    (["x"] : List String) ≠ ["/x"] :=
  ⟨rfl, rfl, by decide⟩

/-- C4 amended: the root-stripping step removes `with_sep(commonprefix
(root :: paths))` — the longest common literal prefix of the root and
all listed paths with a trailing path separator appended — at its first
occurrence in each path string; whenever that separator-suffixed prefix
is a literal string prefix of a listed path, it is removed exactly once
from the front of that path. -/
theorem stripped_listing_amended (root : String) (l : List String)
    (h : ∀ s ∈ l,
        (with_sep (commonPrefixAll (root :: l))).toList.isPrefixOf s.toList = true) :
    stripped_listing root l
      = l.map (fun s =>
          (s.toList.drop (with_sep (commonPrefixAll (root :: l))).toList.length).asString) := by
  unfold stripped_listing erase_from
  apply List.map_congr_left
  intro s hs
  rw [replaceFirst_eq_drop _ _ (h s hs)]

/-- Witness for C4 amended at a two-path listing under root `/a`. -/
theorem stripped_listing_amended_witness :
    stripped_listing "/a" ["/a/x", "/a/y/"]
      = ["/a/x", "/a/y/"].map (fun s =>
          (s.toList.drop
            (with_sep (commonPrefixAll ("/a" :: ["/a/x", "/a/y/"]))).toList.length).asString) :=
  stripped_listing_amended "/a" ["/a/x", "/a/y/"] (by decide)

/-! ## Claim C7: identical trees diff to empty groups -/

/-- C7: for every pair of identical directory trees — equal normalized
listings, and equal sizes and content digests for each non-directory
common pair — `comparison` with flags `"acr"` yields an empty Added,
empty Changed and empty Removed group. -/
theorem comparison_identical_trees (t1 t2 : Tree) (fs : FS)
    (h1 : t1 ≠ []) (h2 : t2 ≠ [])
    (hb : normalized t1 = normalized t2)
    (hc : ∀ pr ∈ commonWithRootsOf t1 t2,
        (fs pr.1).size = (fs pr.2).size ∧ (fs pr.1).md5 = (fs pr.2).md5) :
    comparison "acr" t1 t2 fs false
      = .ok [("Added", []), ("Changed", []), ("Removed", [])] := by
  have hadd : addedOf t1 t2 = [] := by
    rw [List.eq_nil_iff_forall_not_mem]
    intro p hp
    have hm := mem_classify_added.mp hp
    rw [hb] at hm
    exact hm.2 hm.1
  have hrem : removedOf t1 t2 = [] := by
    rw [List.eq_nil_iff_forall_not_mem]
    intro p hp
    have hm := mem_classify_removed.mp hp
    rw [hb] at hm
    exact hm.2 hm.1
  have hch : changedOf t1 t2 fs false = [] := by
    unfold changedOf
    have hflt : (commonWithRootsOf t1 t2).filter (fun pr => differing fs pr.1 pr.2 false) = [] := by
      rw [List.eq_nil_iff_forall_not_mem]
      intro pr hpr
      have hm := List.mem_filter.mp hpr
      obtain ⟨hsz, hmd⟩ := hc pr hm.1
      have hdiff : differing fs pr.1 pr.2 false = false := by
        simp [differing, hsz, hmd]
      rw [hdiff] at hm
      exact Bool.false_ne_true hm.2
    rw [hflt]
    rfl
  rw [comparison_ok "acr" t1 t2 fs false h1 h2 (Or.inl (by decide)), hadd, hch, hrem]
  have hchars : "acr".toList.map Char.toLower = ['a', 'c', 'r'] := by decide
  rw [hchars]
  rfl

/-- Witness for C7: two one-directory one-file trees with the same shape
and contents under different roots. -/
theorem comparison_identical_trees_witness :
    comparison "acr" treeAd treeBd fs0 false
      = .ok [("Added", []), ("Changed", []), ("Removed", [])] :=
  comparison_identical_trees treeAd treeBd fs0 (by decide) (by decide) (by decide)
    (by decide)

/-! ## Monitor-side helper lemmas -/

theorem toList_push (s : String) (c : Char) : (s.push c).toList = s.toList ++ [c] := by
  cases s
  rfl

theorem mem_flagsWithS {c : Char} {flags : String} (h : c ∈ flags.toList) :
    c ∈ (flagsWithS flags).toList := by
  unfold flagsWithS
  by_cases hs : 's' ∈ flags.toList
  · rw [if_pos hs]
    exact h
  · rw [if_neg hs, toList_push]
    exact List.mem_append_left _ h

theorem s_mem_flagsWithS (flags : String) : 's' ∈ (flagsWithS flags).toList := by
  unfold flagsWithS
  by_cases hs : 's' ∈ flags.toList
  · rw [if_pos hs]
    exact hs
  · rw [if_neg hs, toList_push]
    exact List.mem_append_right _ (List.mem_singleton.mpr rfl)

theorem findShared_eq_some {l : List Group} {S : List String}
    (hS : ∀ e ∈ l, e.1 = "Shared" → e.2 = S)
    (hmem : "Shared" ∈ l.map Prod.fst) :
    ∃ i, findShared l = some (i, S) := by
  induction l with
  | nil => simp at hmem
  | cons e rest ih =>
    obtain ⟨label, seq⟩ := e
    by_cases h : label = "Shared"
    · refine ⟨0, ?_⟩
      have hseq : seq = S := hS (label, seq) (List.mem_cons_self _ _) h
      simp [findShared, h, hseq]
    · have hm' : "Shared" ∈ rest.map Prod.fst := by
        simp only [List.map_cons, List.mem_cons] at hmem
        rcases hmem with hmem | hmem
        · exact absurd hmem.symm h
        · exact hmem
      obtain ⟨i, hi⟩ := ih (fun e he hl => hS e (List.mem_cons_of_mem _ he) hl) hm'
      exact ⟨i + 1, by simp [findShared, h, hi]⟩

theorem sharedChanged_ok (m1 m2 : String → Option Nat) (root : String) (seq : List String)
    (hk : ∀ q ∈ seq, (m1 (pjoin root q)).isSome → (m2 (pjoin root q)).isSome) :
    sharedChanged (some m1) (some m2) root seq = .ok (seq.filter (ckDiffers m1 m2 root)) := by
  induction seq with
  | nil => rfl
  | cons q rest ih =>
    have hrest := ih (fun x hx => hk x (List.mem_cons_of_mem _ hx))
    cases hm1 : m1 (pjoin root q) with
    | none =>
      simp [sharedChanged, hm1, hrest, List.filter_cons, ckDiffers]
    | some d1 =>
      have hsome : (m2 (pjoin root q)).isSome := by
        refine hk q (List.mem_cons_self _ _) ?_
        rw [hm1]
        rfl
      obtain ⟨d2, hm2⟩ := Option.isSome_iff_exists.mp hsome
      by_cases hne : d1 = d2
      · simp [sharedChanged, hm1, hm2, hne, hrest, List.filter_cons, ckDiffers]
      · simp [sharedChanged, hm1, hm2, hne, hrest, List.filter_cons, ckDiffers, Except.map]

/-! ## Claim C8: watch mode with skipped checksums crashes -/

/-- C8: when the monitor runs with `skip_checksum` true, neither checksum
map is built (modeled by `none` maps), and a steady cycle whose Shared
group is non-empty fails with `NameError` on the unbound checksum-map
variable instead of producing a report. -/
theorem monitor_skip_checksum_nameError (flags : String) (pre cur : Tree)
    (fsPre fsCur : FS)
    (hcu : 'c' ∈ flags.toList ∨ 'u' ∈ flags.toList)
    (h1 : pre ≠ []) (h2 : cur ≠ [])
    (hsh : commonOf pre cur ≠ []) :
    monitorCycle flags true pre cur fsPre fsCur = .error .nameError := by
  have hcu' : 'c' ∈ (flagsWithS flags).toList ∨ 'u' ∈ (flagsWithS flags).toList := by
    rcases hcu with h | h
    · exact Or.inl (mem_flagsWithS h)
    · exact Or.inr (mem_flagsWithS h)
  have hcomp := comparison_ok (flagsWithS flags) pre cur fsCur true h1 h2 hcu'
  have hstep : monitorCycle flags true pre cur fsPre fsCur
      = (monitorCompared flags true pre cur fsCur).bind
          (processShared none none (rootOf pre)) := rfl
  have hmc : monitorCompared flags true pre cur fsCur
      = comparison (flagsWithS flags) pre cur fsCur true := rfl
  rw [hstep, hmc, hcomp]
  show processShared none none (rootOf pre)
      (buildResults ((flagsWithS flags).toList.map Char.toLower)
        (addedOf pre cur) (changedOf pre cur fsCur true) (removedOf pre cur)
        (commonOf pre cur) (unchangedOf pre cur fsCur true)) = .error .nameError
  have hSprop : ∀ e ∈ buildResults ((flagsWithS flags).toList.map Char.toLower)
        (addedOf pre cur) (changedOf pre cur fsCur true) (removedOf pre cur)
        (commonOf pre cur) (unchangedOf pre cur fsCur true),
      e.1 = "Shared" → e.2 = pysorted (commonOf pre cur) := by
    intro e he hl
    obtain ⟨f, _, hgf⟩ := mem_buildResults he
    exact groupFor_shared hgf hl
  have hsl : 's' ∈ (flagsWithS flags).toList.map Char.toLower :=
    List.mem_map.mpr ⟨'s', s_mem_flagsWithS flags, rfl⟩
  have hmem : "Shared" ∈ (buildResults ((flagsWithS flags).toList.map Char.toLower)
        (addedOf pre cur) (changedOf pre cur fsCur true) (removedOf pre cur)
        (commonOf pre cur) (unchangedOf pre cur fsCur true)).map Prod.fst := by
    rw [buildResults_map_fst]
    exact List.mem_filterMap.mpr ⟨'s', hsl, rfl⟩
  obtain ⟨i, hi⟩ := findShared_eq_some hSprop hmem
  unfold processShared
  rw [hi]
  cases hps : pysorted (commonOf pre cur) with
  | nil => exact absurd hps (pysorted_ne_nil hsh)
  | cons x xs => rfl

/-- Witness for C8: one watched file, checksum skipping on — the cycle
crashes with `NameError`. -/
theorem monitor_skip_checksum_nameError_witness :
    monitorCycle "car" true wTree wTree fsPreW fsCurW = .error .nameError :=
  monitor_skip_checksum_nameError "car" wTree wTree fsPreW fsCurW
    (Or.inl (by decide)) (by decide) (by decide) (by decide)

/-! ## Claim C9: the monitor's orchestrator call ignores checksums -/

theorem differing_congr_mtime (fs fs' : FS) (a b : String)
    (h : ∀ p, (fs' p).size = (fs p).size ∧ (fs' p).mtime = (fs p).mtime) :
    differing fs' a b true = differing fs a b true := by
  simp [differing, (h a).1, (h a).2, (h b).1, (h b).2]

theorem comparison_congr_mtime (flags : String) (t1 t2 : Tree) (fs fs' : FS)
    (h : ∀ p, (fs' p).size = (fs p).size ∧ (fs' p).mtime = (fs p).mtime) :
    comparison flags t1 t2 fs' true = comparison flags t1 t2 fs true := by
  have hch : changedOf t1 t2 fs' true = changedOf t1 t2 fs true := by
    unfold changedOf
    rw [List.filter_congr (fun pr _ => differing_congr_mtime fs fs' pr.1 pr.2 h)]
  have hun : unchangedOf t1 t2 fs' true = unchangedOf t1 t2 fs true := by
    unfold unchangedOf
    rw [hch]
  unfold comparison
  rw [hch, hun]

/-- C9: in every monitor cycle the Diff Orchestrator is invoked with
`skip_checksum` forced to true, so the groups it computes in watch mode
are the same for every value of the user's `skip_checksum` configuration
and depend on the current file-system state only through sizes and
modification times, never through content digests. -/
theorem monitorCompared_mtime_only (flags : String) (skip skip' : Bool) (pre cur : Tree)
    (fsCur fsCur' : FS)
    (h : ∀ p, (fsCur' p).size = (fsCur p).size ∧ (fsCur' p).mtime = (fsCur p).mtime) :
    monitorCompared flags skip pre cur fsCur' = monitorCompared flags skip' pre cur fsCur := by
  unfold monitorCompared
  exact comparison_congr_mtime (flagsWithS flags) pre cur fsCur fsCur' h

/-- Witness for C9: two file systems differing only in digests, opposite
user configurations — the orchestrator call inside the monitor returns
the same groups. -/
theorem monitorCompared_mtime_only_witness :
    monitorCompared "car" true wTree wTree fsMtB
      = monitorCompared "car" false wTree wTree fsMtA :=
  monitorCompared_mtime_only "car" true false wTree wTree fsMtA fsMtB
    (fun _ => ⟨rfl, rfl⟩)

/-! ## Claim C1: the synthesized Changed group in watch mode -/

/-- C1 counterexample: with flags `"ac"` the watched file `"f"` is
Shared, its digests in the two checksum maps are `1` and `2`, yet the
final Changed group is empty: after the Shared group is deleted the
Changed group is not at the head of the list, and the replacement loop's
`break` sits outside its `if`, so only a head Changed group is ever
replaced. -/
theorem monitor_changed_position_counterexample :
    monitorCycle "ac" false wTree wTree fsPreW fsCurW
      = .ok [("Added", []), ("Changed", [])] ∧
    "f" ∈ commonOf wTree wTree ∧
    getChecksums wTree fsPreW (pjoin (rootOf wTree) "f") = some 1 ∧
    getChecksums wTree fsCurW (pjoin (rootOf wTree) "f") = some 2 ∧
    (1 : Nat) ≠ 2 :=
  ⟨rfl, by decide, rfl, rfl, by decide⟩

/-- C1 amended: in a steady monitor cycle run with the default flag
order `"car"` (so that the Changed group is the first group the
orchestrator emits once Shared is removed), every Shared path whose
absolute path has a fingerprint in both checksum maps with differing
values appears in the synthesized Changed group, that group replaces the
orchestrator's Changed group, and the Shared group is absent from the
emitted output.  The lookup hypothesis `hk` reflects the source's
one-sided guard: a key present in the previous map must still be present
in the current map, else the cycle dies with `KeyError`. -/
theorem monitor_default_flags_changed (pre cur : Tree) (fsPre fsCur : FS) (p : String)
    (d1 d2 : Nat)
    (h1 : pre ≠ []) (h2 : cur ≠ [])
    (hp : p ∈ commonOf pre cur)
    (hd1 : getChecksums pre fsPre (pjoin (rootOf pre) p) = some d1)
    (hd2 : getChecksums cur fsCur (pjoin (rootOf pre) p) = some d2)
    (hne : d1 ≠ d2)
    (hk : ∀ q ∈ commonOf pre cur,
        (getChecksums pre fsPre (pjoin (rootOf pre) q)).isSome →
        (getChecksums cur fsCur (pjoin (rootOf pre) q)).isSome) :
    monitorCycle "car" false pre cur fsPre fsCur
      = .ok [("Changed",
              (pysorted (commonOf pre cur)).filter
                (ckDiffers (getChecksums pre fsPre) (getChecksums cur fsCur) (rootOf pre))),
             ("Added", pysorted (addedOf pre cur)),
             ("Removed", pysorted (removedOf pre cur))]
      ∧ p ∈ (pysorted (commonOf pre cur)).filter
              (ckDiffers (getChecksums pre fsPre) (getChecksums cur fsCur) (rootOf pre)) := by
  have hck : ckDiffers (getChecksums pre fsPre) (getChecksums cur fsCur) (rootOf pre) p
      = true := by
    unfold ckDiffers
    rw [hd1, hd2]
    simp [hne]
  refine ⟨?_, List.mem_filter.mpr ⟨mem_pysorted.mpr hp, hck⟩⟩
  have hk' : ∀ q ∈ pysorted (commonOf pre cur),
      ((getChecksums pre fsPre) (pjoin (rootOf pre) q)).isSome →
      ((getChecksums cur fsCur) (pjoin (rootOf pre) q)).isSome :=
    fun q hq => hk q (mem_pysorted.mp hq)
  have hcomp := comparison_ok "cars" pre cur fsCur true h1 h2 (Or.inl (by decide))
  have hchars : "cars".toList.map Char.toLower = ['c', 'a', 'r', 's'] := by decide
  rw [hchars] at hcomp
  have hstep : monitorCycle "car" false pre cur fsPre fsCur
      = (comparison "cars" pre cur fsCur true).bind
          (processShared (some (getChecksums pre fsPre)) (some (getChecksums cur fsCur))
            (rootOf pre)) := rfl
  rw [hstep, hcomp]
  have hB : buildResults ['c', 'a', 'r', 's'] (addedOf pre cur) (changedOf pre cur fsCur true)
        (removedOf pre cur) (commonOf pre cur) (unchangedOf pre cur fsCur true)
      = [("Changed", pysorted (changedOf pre cur fsCur true)),
         ("Added", pysorted (addedOf pre cur)),
         ("Removed", pysorted (removedOf pre cur)),
         ("Shared", pysorted (commonOf pre cur))] := rfl
  show processShared (some (getChecksums pre fsPre)) (some (getChecksums cur fsCur))
      (rootOf pre)
      (buildResults ['c', 'a', 'r', 's'] (addedOf pre cur) (changedOf pre cur fsCur true)
        (removedOf pre cur) (commonOf pre cur) (unchangedOf pre cur fsCur true))
    = _
  rw [hB]
  unfold processShared
  have hfind : findShared
      [("Changed", pysorted (changedOf pre cur fsCur true)),
       ("Added", pysorted (addedOf pre cur)),
       ("Removed", pysorted (removedOf pre cur)),
       ("Shared", pysorted (commonOf pre cur))]
      = some (3, pysorted (commonOf pre cur)) := rfl
  rw [hfind]
  show Except.map
      (fun changed =>
        replaceHeadChanged
          (List.eraseIdx
            [("Changed", pysorted (changedOf pre cur fsCur true)),
             ("Added", pysorted (addedOf pre cur)),
             ("Removed", pysorted (removedOf pre cur)),
             ("Shared", pysorted (commonOf pre cur))] 3)
          changed)
      (sharedChanged (some (getChecksums pre fsPre)) (some (getChecksums cur fsCur))
        (rootOf pre) (pysorted (commonOf pre cur)))
    = _
  rw [sharedChanged_ok _ _ _ _ hk']
  rfl

/-- Witness for C1 amended: the rewritten watched file lands in the
synthesized Changed group and Shared is gone. -/
theorem monitor_default_flags_changed_witness :
    monitorCycle "car" false wTree wTree fsPreW fsCurW
      = .ok [("Changed",
              (pysorted (commonOf wTree wTree)).filter
                (ckDiffers (getChecksums wTree fsPreW) (getChecksums wTree fsCurW)
                  (rootOf wTree))),
             ("Added", pysorted (addedOf wTree wTree)),
             ("Removed", pysorted (removedOf wTree wTree))]
      ∧ "f" ∈ (pysorted (commonOf wTree wTree)).filter
              (ckDiffers (getChecksums wTree fsPreW) (getChecksums wTree fsCurW)
                (rootOf wTree)) :=
  monitor_default_flags_changed wTree wTree fsPreW fsCurW "f" 1 2
    (by decide) (by decide) (by decide) rfl rfl (by decide) (by decide)

end Changemon
